import Mathlib

/-!
# Verification of the employee report generator

A shallow embedding of `main.py` from the employee-report-generator
repository, together with proofs of the specification's claims about it.

Conventions of the embedding:

* Python strings are Lean `String`s; the handful of string primitives the
  program uses (`str.strip`, `str.split(sep)`, string comparison) are
  re-implemented structurally on `List Char` so that every definition is
  executable by the kernel.  They model CPython's behaviour on the ASCII
  inputs the program deals with.
* Python numbers (the results of `float(...)` and arithmetic on them) are
  modelled as exact rationals `ℚ`.  The program never relies on binary
  floating-point rounding: every claim is about exact integral values.
* A Python `dict` built by repeated `d[k] = v` assignment is modelled as an
  association list together with `dictInsert`, which replaces the value of
  an existing key in place (preserving first-insertion order) and appends a
  fresh key at the end — exactly CPython's insertion-order semantics.
* File access is out of scope (it belongs to the CLI collaborator): the
  functions that in Python receive a file path here receive the file's
  contents as a string.
-/

namespace EmployeeReport

/-- A Python value stored in an employee record: either a number
(`float`/`int`, modelled as `ℚ`) or a string. -/
inductive Value where
  | num (q : ℚ)
  | str (s : String)
deriving DecidableEq

/-- A Python `dict` from column names to values, as an insertion-ordered
association list with unique keys (uniqueness is maintained by
`dictInsert`). -/
abbrev Record := List (String × Value)

/-- Lookup in a record: the value at key `k`, if present. -/
def dictGet? : Record → String → Option Value
  | [], _ => none
  | (k', v) :: d, k => if k' = k then some v else dictGet? d k

/-- `d[k] = v` on a Python dict: replace in place if `k` is present,
append otherwise. -/
def dictInsert : Record → String → Value → Record
  | [], k, v => [(k, v)]
  | (k', v') :: d, k, v =>
    if k' = k then (k, v) :: d else (k', v') :: dictInsert d k v

/-- Insert a list of key/value pairs into a record, left to right. -/
def insertAll (d : Record) (ps : List (String × Value)) : Record :=
  ps.foldl (fun d p => dictInsert d p.1 p.2) d

/-- The LAST value bound to `k` in a list of pairs (rightmost occurrence),
if any.  Used to specify which value survives when several columns collide
on one key. -/
def assocLast : List (String × Value) → String → Option Value
  | [], _ => none
  | (k', v) :: ps, k =>
    match assocLast ps k with
    | some w => some w
    | none => if k' = k then some v else none

/-! ## String primitives (models of the Python builtins used) -/

/-- ASCII whitespace, as recognised by Python's `str.strip()` (restricted
to the ASCII range; the program only meets ASCII input). -/
def isPySpace (c : Char) : Bool :=
  c = ' ' || c = '\t' || c = '\n' || c = '\x0d' || c = '\x0b' || c = '\x0c'

/-- Model of Python `str.strip()`: drop leading and trailing whitespace. -/
def pyStrip (s : String) : String :=
  String.mk (((s.data.dropWhile isPySpace).reverse.dropWhile isPySpace).reverse)

/-- Split a character list on a separator character.  Mirrors Python
`str.split(sep)` with a one-character separator: splitting the empty
string yields `[""]`, never `[]`. -/
def splitChars (sep : Char) : List Char → List String
  | [] => [""]
  | c :: cs =>
    if c = sep then "" :: splitChars sep cs
    else
      match splitChars sep cs with
      | [] => [String.mk [c]]
      | s :: rest => String.mk (c :: s.data) :: rest

/-- Model of Python `s.split(sep)` for a one-character separator. -/
def pySplit (s : String) (sep : Char) : List String :=
  splitChars sep s.data

/-- `sub` occurs at the start of `l`. -/
def startsWith : List Char → List Char → Bool
  | _, [] => true
  | [], _ :: _ => false
  | c :: cs, d :: ds => c = d && startsWith cs ds

/-- `sub` occurs somewhere in `l` (model of Python's `in` on strings). -/
def containsSub : List Char → List Char → Bool
  | l, sub =>
    match l with
    | [] => startsWith [] sub
    | _ :: cs => startsWith l sub || containsSub cs sub

/-- Model of Python's `sub in s` substring test. -/
def strContains (s sub : String) : Bool :=
  containsSub s.data sub.data

/-! ## The Tabular Parser (`read_csv`, `parse_csv_to_dicts`) -/

/-- Numeric value of a list of decimal digits. -/
def digitsVal (l : List Char) : ℕ :=
  l.foldl (fun a c => 10 * a + (c.toNat - 48)) 0

/-- The rational denoted by integer digits `ip` and fraction digits `fp`. -/
def decimalVal (ip fp : List Char) : ℚ :=
  (digitsVal ip : ℚ) + (digitsVal fp : ℚ) / (10 : ℚ) ^ fp.length

/-- Parse an unsigned decimal literal (digits with an optional single
point, at least one digit on one side). -/
def parseUnsignedFloat (l : List Char) : Option ℚ :=
  let ip := l.takeWhile (· ≠ '.')
  match l.dropWhile (· ≠ '.') with
  | [] =>
    if ip ≠ [] ∧ ip.all (·.isDigit) then some (digitsVal ip : ℚ) else none
  | _ :: fp =>
    if (ip ≠ [] ∨ fp ≠ []) ∧ ip.all (·.isDigit) ∧ fp.all (·.isDigit) then
      some (decimalVal ip fp)
    else none

/-- Model of Python's `float(s)` builtin as used by the parser: leading and
trailing whitespace is ignored, then an optionally signed decimal literal
is accepted; anything else raises `ValueError`, which the model renders as
`none`.  (The exotic forms `inf`, `nan` and exponent notation are omitted:
no claim depends on which strings succeed, only on success of plain
numerals and failure of non-numeric text.) -/
def pyFloat? (s : String) : Option ℚ :=
  match (pyStrip s).data with
  | '+' :: l => parseUnsignedFloat l
  | '-' :: l => (parseUnsignedFloat l).map (fun q => -q)
  | l => parseUnsignedFloat l

/-- `read_csv` (main.py lines 38-47), on the file's contents: strip the
whole content, split on newlines; if the resulting list is empty return an
empty table (dead branch: `splitChars` never returns `[]`, exactly as
Python's `split` never returns `[]`); otherwise the first line split on
`,` gives the headers and every non-empty later line split on `,` gives a
row. -/
def read_csv (content : String) : List String × List (List String) :=
  match pySplit (pyStrip content) '\n' with
  | [] => ([], [])
  | first :: rest =>
    (pySplit first ',', (rest.filter (fun r => r ≠ "")).map (fun r => pySplit r ','))

/-- Header normalisation (main.py lines 66-71): the aliases
`hourly_rate`, `rate`, `salary` all map to `hourly_rate`; any other
header is passed through unchanged. -/
def normalizeHeader (h : String) : String :=
  if h = "hourly_rate" ∨ h = "rate" ∨ h = "salary" then "hourly_rate" else h

/-- The normalised header list (`normalized_headers` in main.py). -/
def normHeaders (headers : List String) : List String :=
  headers.map normalizeHeader

/-- Conversion of one cell (main.py lines 81-87): numeric columns go
through `float`, with `0` on failure; all other columns stay strings. -/
def convertField (name value : String) : Value :=
  if name = "hours_worked" ∨ name = "hourly_rate" then
    match pyFloat? value with
    | some q => .num q
    | none => .num 0
  else .str value

/-- Build one employee record from a row (the inner loop of
`parse_csv_to_dicts`, main.py lines 78-87): pair each cell with the
normalised header at the same position and assign into the dict in order. -/
def buildEmployee (nhs row : List String) : Record :=
  insertAll [] ((nhs.zip row).map (fun p => (p.1, convertField p.1 p.2)))

/-- Row-to-record conversion for one row (main.py lines 74-88): a row
whose width differs from the header count is skipped, any other row
produces exactly one record. -/
def rowToRecord? (headers : List String) (row : List String) : Option Record :=
  if row.length ≠ headers.length then none
  else some (buildEmployee (normHeaders headers) row)

/-- The record-building stage of `parse_csv_to_dicts` (main.py
lines 62-90). -/
def toRecords (headers : List String) (data : List (List String)) : List Record :=
  if headers = [] ∨ data = [] then []
  else data.filterMap (rowToRecord? headers)

/-- `parse_csv_to_dicts` (main.py lines 50-90), on the file's contents. -/
def parse_csv_to_dicts (content : String) : List Record :=
  toRecords (read_csv content).1 (read_csv content).2

/-! ## The Report Engine (`generate_payout_report`, `get_report_generator`)

The report renderer applies numeric formatting (`f"{x:8.0f}"` etc.) to the
`hours_worked` and `hourly_rate` fields and multiplies them; on a record
that holds a *string* in one of those fields CPython raises a `TypeError`.
The embedding is total: the getters return the junk value `0` on such a
field, and every theorem about the renderer carries the well-typedness
hypothesis `wellTyped` (numeric fields hold numbers, `name`/`department`
hold strings) which scopes it to the records the renderer actually
accepts — precisely the records the Tabular Parser produces. -/

/-- Right-pad with spaces to width `w` (Python `f"{s:w}"` for a string). -/
def padRight (s : String) (w : Nat) : String :=
  s ++ String.mk (List.replicate (w - s.length) ' ')

/-- Left-pad with spaces to width `w` (Python `f"{s:>w}"`, and the
alignment step of numeric formatting). -/
def padLeft (s : String) (w : Nat) : String :=
  String.mk (List.replicate (w - s.length) ' ') ++ s

/-- Round to the nearest integer, ties to even: the rounding CPython's
`format(x, ".0f")` performs.  (CPython displays `-0` for small negative
values; `ℤ` has no negative zero, so that display corner collapses to
`0` — no claim touches it.)  The first branch is the general definition
specialised to integral values, on which it avoids any division. -/
def rnd (q : ℚ) : ℤ :=
  if q.den = 1 then q.num
  else
    let f : ℤ := Int.fdiv q.num (q.den : ℤ)
    let r : ℚ := q - (f : ℚ)
    if r < 1 / 2 then f
    else if 1 / 2 < r then f + 1
    else if f % 2 = 0 then f else f + 1

/-- Python `f"{q:.0f}"`: the rounded value with no padding. -/
def fmt0 (q : ℚ) : String :=
  toString (rnd q)

/-- Python `f"{q:w.0f}"`: the rounded value right-aligned to width `w`. -/
def fmt0w (q : ℚ) (w : Nat) : String :=
  padLeft (fmt0 q) w

/-- Display form of a number outside numeric format specs (Python's
`repr` of a float, used when a numeric value lands in the name column).
Faithful for integral values; only reachable on records that violate
`wellTyped`. -/
def pyFloatStr (q : ℚ) : String :=
  if q.den = 1 then toString q.num ++ ".0" else toString q.num ++ "/" ++ toString q.den

/-- Python `f"{v:20}"` on a record value: strings left-align, numbers
right-align under their display form. -/
def fmtValueLeft (v : Value) (w : Nat) : String :=
  match v with
  | .str s => padRight s w
  | .num q => padLeft (pyFloatStr q) w

/-- `employee.get('hours_worked', 0)` (main.py line 120), as a number.
On a string value the source would raise at the subsequent multiplication
or formatting; see the section comment. -/
def getHours (e : Record) : ℚ :=
  match dictGet? e "hours_worked" with
  | some (.num q) => q
  | some (.str _) => 0
  | none => 0

/-- `employee.get('hourly_rate', 0)` (main.py line 121), as a number. -/
def getRate (e : Record) : ℚ :=
  match dictGet? e "hourly_rate" with
  | some (.num q) => q
  | some (.str _) => 0
  | none => 0

/-- `hours * rate` for one employee (main.py line 122), with both fields
defaulting to `0` when absent. -/
def employeePayout (e : Record) : ℚ :=
  getHours e * getRate e

/-- `employee.get('name', 'Unknown')` (main.py line 119). -/
def getName (e : Record) : Value :=
  match dictGet? e "name" with
  | some v => v
  | none => .str "Unknown"

/-- The department key of a record (main.py line 101):
`employee.get('department', 'Unknown')`.  The source uses the raw value as
the dict key; a numeric department (which would later make the source's
`sorted()` raise a `TypeError` against string keys) is collapsed to its
display form, behind the `wellTyped` hypothesis. -/
def deptKey (e : Record) : String :=
  match dictGet? e "department" with
  | some (.str s) => s
  | some (.num q) => pyFloatStr q
  | none => "Unknown"

/-- Append a record to its department's group, preserving first-seen group
order (main.py lines 102-104: `departments[dept].append(employee)` after
creating the entry if needed). -/
def addToGroup : List (String × List Record) → String → Record → List (String × List Record)
  | [], d, e => [(d, [e])]
  | (d', es) :: deps, d, e =>
    if d' = d then (d', es ++ [e]) :: deps
    else (d', es) :: addToGroup deps d e

/-- The `departments` dict (main.py lines 99-104): records grouped by
department key, groups in first-arrival order, members in arrival order. -/
def groupByDept (records : List Record) : List (String × List Record) :=
  records.foldl (fun deps e => addToGroup deps (deptKey e) e) []

/-- `sorted(departments.items())` (main.py line 113): the groups sorted by
department key in code-point lexicographic order (Lean's `≤` on `String`
and Python's `<=` are both lexicographic on code points).  The keys are
distinct, so Python's tuple comparison only ever compares the keys, and
any sorted rearrangement — here a stable insertion sort — is the unique
one. -/
def sortDeps (deps : List (String × List Record)) : List (String × List Record) :=
  deps.insertionSort (fun a b => a.1 ≤ b.1)

instance : IsTotal (String × List Record) (fun a b => a.1 ≤ b.1) :=
  ⟨fun a b => le_total a.1 b.1⟩

instance : IsTrans (String × List Record) (fun a b => a.1 ≤ b.1) :=
  ⟨fun _ _ _ => le_trans⟩

/-- The fixed-width header line (main.py line 108). -/
def headerLine : String :=
  padRight "name" 30 ++ " " ++ padLeft "hours" 8 ++ " " ++ padLeft "rate" 8
    ++ " " ++ padLeft "payout" 10

/-- One employee's row line (main.py line 124). -/
def employeeLine (e : Record) : String :=
  "-------------- " ++ fmtValueLeft (getName e) 20 ++ " " ++ fmt0w (getHours e) 8
    ++ " " ++ fmt0w (getRate e) 8 ++ " $" ++ fmt0w (employeePayout e) 9

/-- A department's subtotal line (main.py line 129). -/
def subtotalLine (hours payout : ℚ) : String :=
  padRight " " 45 ++ " " ++ fmt0w hours 8 ++ " " ++ padRight " " 8
    ++ " $" ++ fmt0w payout 8

/-- A department's subtotal hours: the value the inner loop accumulates. -/
def deptHours (es : List Record) : ℚ :=
  (es.map getHours).sum

/-- A department's subtotal payout. -/
def deptPayout (es : List Record) : ℚ :=
  (es.map employeePayout).sum

/-- The block of lines one department contributes to the report: the
department name, one line per employee in arrival order, the subtotal. -/
def deptSection (d : String) (es : List Record) : List String :=
  d :: (es.map employeeLine ++ [subtotalLine (deptHours es) (deptPayout es)])

/-- Accumulator of the inner employee loop (main.py lines 115-127). -/
structure DeptAcc where
  lines : List String
  dept_total_hours : ℚ
  dept_total_payout : ℚ


/-- One step of the inner loop (main.py lines 118-127): emit the
employee's line and accumulate the department totals. -/
def emitEmployee (acc : DeptAcc) (e : Record) : DeptAcc :=
  { lines := acc.lines ++ [employeeLine e],
    dept_total_hours := acc.dept_total_hours + getHours e,
    dept_total_payout := acc.dept_total_payout + employeePayout e }

/-- Accumulator of the outer department loop (main.py lines 107-131). -/
structure GrandAcc where
  report_lines : List String
  grand_total_hours : ℚ
  grand_total_payout : ℚ


/-- One step of the outer loop (main.py lines 113-131): emit the
department name, run the inner loop, emit the subtotal line, add the
department totals into the grand totals. -/
def emitDept (acc : GrandAcc) (p : String × List Record) : GrandAcc :=
  let inner := p.2.foldl emitEmployee ⟨acc.report_lines ++ [p.1], 0, 0⟩
  { report_lines := inner.lines ++ [subtotalLine inner.dept_total_hours inner.dept_total_payout],
    grand_total_hours := acc.grand_total_hours + inner.dept_total_hours,
    grand_total_payout := acc.grand_total_payout + inner.dept_total_payout }

/-- The full loop of `generate_payout_report` over the sorted department
groups, starting from the header line and zero totals. -/
def runReport (deps : List (String × List Record)) : GrandAcc :=
  deps.foldl emitDept ⟨[headerLine], 0, 0⟩

/-- The groups in the order the report renders them. -/
def reportDepartments (rs : List Record) : List (String × List Record) :=
  sortDeps (groupByDept rs)

/-- `generate_payout_report` (main.py lines 93-136).  Note the grand-total
hours line is appended as a single element beginning with `"\n"`
(main.py line 133), which the final newline join turns into a blank
line. -/
def generate_payout_report (employees_data : List Record) : String :=
  if employees_data = [] then "No data available for report."
  else
    let st := runReport (reportDepartments employees_data)
    String.intercalate "\n"
      (st.report_lines ++
        ["\n" ++ "Total hours: " ++ fmt0 st.grand_total_hours,
         "Total payout: $" ++ fmt0 st.grand_total_payout])

/-- The report registry (main.py lines 141-144). -/
def report_generators : List (String × (List Record → String)) :=
  [("payout", generate_payout_report)]

/-- `get_report_generator` (main.py lines 139-149): look the report type
up in the registry; an unregistered name raises
`ValueError(f"Unknown report type: {report_type}")`, modelled as
`Except.error` carrying the message. -/
def get_report_generator (report_type : String) : Except String (List Record → String) :=
  match report_generators.lookup report_type with
  | some g => .ok g
  | none => .error ("Unknown report type: " ++ report_type)

/-- Well-typedness of one record field: numeric fields hold numbers,
`name` and `department` hold strings.  This is the `EmployeeRecord`
invariant of the data model, and exactly the domain on which the source's
renderer does not raise a `TypeError`. -/
def wtPair : String × Value → Bool
  | (k, .num _) => k != "name" && k != "department"
  | (k, .str _) => k != "hours_worked" && k != "hourly_rate"

/-- Well-typedness of a record sequence. -/
def wellTyped (rs : List Record) : Bool :=
  rs.all (fun e => e.all wtPair)

/-! ## The concrete scenario of the spec's testable property 7 -/

/-- `{name: "John Doe", department: "IT", hours_worked: 160, hourly_rate: 50}`. -/
def johnDoe : Record :=
  [("name", .str "John Doe"), ("department", .str "IT"),
   ("hours_worked", .num 160), ("hourly_rate", .num 50)]

/-- `{name: "Jane Smith", department: "IT", hours_worked: 150, hourly_rate: 60}`. -/
def janeSmith : Record :=
  [("name", .str "Jane Smith"), ("department", .str "IT"),
   ("hours_worked", .num 150), ("hourly_rate", .num 60)]

/-- `{name: "Bob Brown", department: "HR", hours_worked: 170, hourly_rate: 40}`. -/
def bobBrown : Record :=
  [("name", .str "Bob Brown"), ("department", .str "HR"),
   ("hours_worked", .num 170), ("hourly_rate", .num 40)]

/-- The three-record input of the concrete scenario. -/
def demoRecords : List Record :=
  [johnDoe, janeSmith, bobBrown]

/-- The document the source actually produces on `demoRecords` (proved
below): header, HR section (Bob), IT section (John, Jane), subtotals,
blank line, grand totals.  Note each employee payout is rendered as `$`
followed by the amount right-justified in width 9, so the dollar sign is
separated from the digits by padding spaces. -/
def demoReport : String :=
  "name                              hours     rate     payout\nHR\n-------------- Bob Brown                 170       40 $     6800\n                                                   170          $    6800\nIT\n-------------- John Doe                  160       50 $     8000\n-------------- Jane Smith                150       60 $     9000\n                                                   310          $   17000\n\nTotal hours: 480\nTotal payout: $23800"

/-! ## Dictionary lemmas -/

theorem dictGet?_insert (d : Record) (k q : String) (v : Value) :
    dictGet? (dictInsert d k v) q = if k = q then some v else dictGet? d q := by
  induction d with
  | nil => rfl
  | cons p d ih =>
    obtain ⟨k', v'⟩ := p
    by_cases hk : k' = k
    · subst hk
      by_cases hq : k' = q <;> simp [dictInsert, dictGet?, hq]
    · by_cases hq : k' = q
      · subst hq
        have : ¬ k = k' := fun h => hk h.symm
        simp [dictInsert, dictGet?, hk, this]
      · simp [dictInsert, dictGet?, hk, hq, ih]

theorem dictGet?_insertAll (ps : List (String × Value)) (d : Record) (k : String) :
    dictGet? (insertAll d ps) k =
      match assocLast ps k with
      | some v => some v
      | none => dictGet? d k := by
  induction ps generalizing d with
  | nil => rfl
  | cons p ps ih =>
    obtain ⟨k', v⟩ := p
    show dictGet? (insertAll (dictInsert d k' v) ps) k = _
    rw [ih]
    rcases h : assocLast ps k with _ | w
    · simp only [assocLast, h, dictGet?_insert]
      by_cases hk : k' = k <;> simp [hk]
    · simp [assocLast, h]

theorem assocLast_of_not_mem (ps : List (String × Value)) (k : String)
    (h : ∀ p ∈ ps, p.1 ≠ k) : assocLast ps k = none := by
  induction ps with
  | nil => rfl
  | cons p ps ih =>
    have h1 : p.1 ≠ k := h p (List.mem_cons_self p ps)
    have h2 := ih (fun q hq => h q (List.mem_cons_of_mem p hq))
    simp [assocLast, h2, h1]

theorem assocLast_last (ps : List (String × Value)) (k : String) (i : Nat)
    (hi : i < ps.length) (hk : (ps.get ⟨i, hi⟩).1 = k)
    (hlast : ∀ j (hj : j < ps.length), i < j → (ps.get ⟨j, hj⟩).1 ≠ k) :
    assocLast ps k = some (ps.get ⟨i, hi⟩).2 := by
  induction ps generalizing i with
  | nil => exact absurd hi (Nat.not_lt_zero i)
  | cons p ps ih =>
    cases i with
    | zero =>
      have hnone : assocLast ps k = none := by
        apply assocLast_of_not_mem
        intro q hq
        obtain ⟨⟨j, hj⟩, rfl⟩ := List.mem_iff_get.mp hq
        exact hlast (j + 1) (Nat.succ_lt_succ hj) (Nat.succ_pos j)
      simp only [assocLast, hnone]
      simp_all [List.get]
    | succ i =>
      have hi' : i < ps.length := Nat.lt_of_succ_lt_succ hi
      have h := ih i hi' hk
        (fun j hj hij => hlast (j + 1) (Nat.succ_lt_succ hj) (Nat.succ_lt_succ hij))
      simp [assocLast, h]

theorem dictInsert_keys (d : Record) (k : String) (v : Value) :
    (dictInsert d k v).map Prod.fst =
      if k ∈ d.map Prod.fst then d.map Prod.fst else d.map Prod.fst ++ [k] := by
  induction d with
  | nil => rfl
  | cons p d ih =>
    obtain ⟨k', v'⟩ := p
    by_cases hk : k' = k
    · subst hk
      simp [dictInsert]
    · have : ¬ k = k' := fun h => hk h.symm
      by_cases hmem : k ∈ d.map Prod.fst <;>
        simp [dictInsert, hk, this, hmem, ih]

theorem insertAll_keys_nodup (ps : List (String × Value)) (d : Record)
    (hd : (d.map Prod.fst).Nodup) : ((insertAll d ps).map Prod.fst).Nodup := by
  induction ps generalizing d with
  | nil => exact hd
  | cons p ps ih =>
    show ((insertAll (dictInsert d p.1 p.2) ps).map Prod.fst).Nodup
    apply ih
    rw [dictInsert_keys]
    by_cases hmem : p.1 ∈ d.map Prod.fst
    · simpa [hmem] using hd
    · simpa [hmem, List.nodup_append] using hd

/-- The pairs the row loop inserts, in insertion order. -/
def rowPairs (nhs row : List String) : List (String × Value) :=
  (nhs.zip row).map (fun p => (p.1, convertField p.1 p.2))

theorem dictGet?_buildEmployee (nhs row : List String) (k : String) :
    dictGet? (buildEmployee nhs row) k = assocLast (rowPairs nhs row) k := by
  show dictGet? (insertAll [] (rowPairs nhs row)) k = _
  rw [dictGet?_insertAll]
  rcases assocLast (rowPairs nhs row) k with _ | v <;> rfl

theorem buildEmployee_get_last (nhs row : List String) (i : Nat)
    (hi : i < row.length) (hl : nhs.length = row.length)
    (hlast : ∀ j (hj : j < row.length), i < j → nhs[j] ≠ nhs[i]) :
    dictGet? (buildEmployee nhs row) nhs[i] =
      some (convertField nhs[i] row[i]) := by
  rw [dictGet?_buildEmployee]
  have hps : (rowPairs nhs row).length = row.length := by
    simp [rowPairs, hl]
  have hget : ∀ j (hj : j < row.length),
      (rowPairs nhs row).get ⟨j, by omega⟩ =
        (nhs[j], convertField nhs[j] row[j]) := by
    intro j hj
    simp [rowPairs]
  have h := assocLast_last (rowPairs nhs row) nhs[i] i (by omega)
    (by rw [hget i hi]) ?_
  · rw [h, hget i hi]
  · intro j hj hij
    rw [hget j (by omega)]
    exact hlast j (by omega) hij

theorem buildEmployee_keys_nodup (nhs row : List String) :
    ((buildEmployee nhs row).map Prod.fst).Nodup :=
  insertAll_keys_nodup _ [] (by simp)

/-! ## Claim C1: `read_csv` on content that strips to nothing

Python's `"".split('\n')` is `['']`, never the empty list, so the guard
`if not content` on main.py line 41 is dead and the header list for empty
or whitespace-only input is `[""]` — one empty-string header — not `[]`.
This contradicts the repository's own test `test_read_csv_empty_file`,
which asserts `headers == []`, and the spec sentence the claim quotes. -/

/-- C1 (code bug): on empty and on whitespace-only content, `read_csv`
returns the one-element header list `[""]` — not the empty headers the
claim (and the repository's own test `test_read_csv_empty_file`)
demand — together with empty rows; no error is raised. -/
theorem read_csv_blank_input_bug :
    read_csv "" = ([""], []) ∧ read_csv " \t\n " = ([""], []) ∧
      ([""] : List String) ≠ [] := by
  refine ⟨rfl, by decide, by decide⟩

/-! ## Claim C2: header normalisation is total and idempotent -/

/-- C2: `normalizeHeader` is idempotent; it returns `"hourly_rate"`
exactly on the three aliases `hourly_rate`, `rate`, `salary`; every other
header passes through unchanged.  (Totality is inherent: it is a Lean
function on all of `String`.) -/
theorem normalizeHeader_idempotent_aliases (h : String) :
    normalizeHeader (normalizeHeader h) = normalizeHeader h ∧
      (normalizeHeader h = "hourly_rate" ↔
        (h = "hourly_rate" ∨ h = "rate" ∨ h = "salary")) ∧
      (¬ (h = "hourly_rate" ∨ h = "rate" ∨ h = "salary") → normalizeHeader h = h) := by
  by_cases hc : h = "hourly_rate" ∨ h = "rate" ∨ h = "salary"
  · have h1 : normalizeHeader h = "hourly_rate" := by simp [normalizeHeader, hc]
    have h2 : normalizeHeader "hourly_rate" = "hourly_rate" := rfl
    refine ⟨by rw [h1, h2], by simp [h1, hc], fun hn => absurd hc hn⟩
  · have h1 : normalizeHeader h = h := by simp [normalizeHeader, hc]
    refine ⟨by rw [h1, h1], ?_, fun _ => h1⟩
    rw [h1]
    exact ⟨fun he => absurd (Or.inl he) hc, fun he => absurd he hc⟩

/-- Witness for C2 at concrete headers. -/
theorem normalizeHeader_idempotent_aliases_witness :
    normalizeHeader (normalizeHeader "salary") = normalizeHeader "salary" ∧
      normalizeHeader "department" = "department" :=
  ⟨(normalizeHeader_idempotent_aliases "salary").1,
    (normalizeHeader_idempotent_aliases "department").2.2 (by decide)⟩

/-! ## Claim C3: the row-width filter -/

/-- C3: rows whose width differs from the header count are skipped — no
record, no error — and every width-matching row yields exactly one
record, built by pairing each cell with the normalised header at the same
position (the final conjunct: each column's normalised name, looked up in
the produced record, holds that column's converted cell whenever no later
column collides with it — collisions are claim C10's subject). -/
theorem toRecords_width_filter (headers : List String) (data : List (List String)) :
    (headers ≠ [] → data ≠ [] →
        toRecords headers data =
          (data.filter (fun r => decide (r.length = headers.length))).map
            (buildEmployee (normHeaders headers))) ∧
      (∀ row : List String, row.length ≠ headers.length →
        rowToRecord? headers row = none) ∧
      (∀ row : List String, row.length = headers.length →
        rowToRecord? headers row = some (buildEmployee (normHeaders headers) row)) ∧
      (∀ (row : List String) (i : Nat) (hi : i < row.length)
        (hl : (normHeaders headers).length = row.length),
        (∀ j (hj : j < row.length), i < j →
          (normHeaders headers)[j] ≠ (normHeaders headers)[i]) →
        dictGet? (buildEmployee (normHeaders headers) row) ((normHeaders headers)[i]) =
          some (convertField ((normHeaders headers)[i]) row[i])) := by
  refine ⟨fun hh hd => ?_, fun row hr => by simp [rowToRecord?, hr],
    fun row hr => by simp [rowToRecord?, hr],
    fun row i hi hl hlast => buildEmployee_get_last _ row i hi hl hlast⟩
  have hif : ¬ (headers = [] ∨ data = []) := by
    rintro (h | h)
    exacts [hh h, hd h]
  rw [toRecords, if_neg hif]
  clear hd hif
  induction data with
  | nil => rfl
  | cons r d ih =>
    by_cases hr : r.length = headers.length <;>
      simp [List.filterMap_cons, rowToRecord?, hr, ih]

/-- Witness for C3: a two-column file where the well-formed row `1,x`
yields a record and the short row `bad` is silently dropped. -/
theorem toRecords_width_filter_witness :
    toRecords ["id", "name"] [["1", "x"], ["bad"]] =
        [buildEmployee (normHeaders ["id", "name"]) ["1", "x"]] ∧
      rowToRecord? ["id", "name"] ["bad"] = none := by
  have h := toRecords_width_filter ["id", "name"] [["1", "x"], ["bad"]]
  refine ⟨?_, h.2.1 ["bad"] (by decide)⟩
  have h1 := h.1 (by decide) (by decide)
  simpa using h1

/-! ## Claim C4: the numeric-conversion default -/

/-- C4: in a width-matching row, a cell in a column whose normalised name
is `hours_worked` or `hourly_rate` on which numeric conversion fails is
stored as the number `0`: the row still yields its record (first
conjunct — no drop, no error) and the record holds `0` at that column's
name (second conjunct; `hlast` pins the column as its name's rightmost
occurrence, the entry that survives dict assignment). -/
theorem numeric_conversion_default_zero (headers row : List String) (i : Nat)
    (hlen : row.length = headers.length) (hi : i < row.length)
    (hl : (normHeaders headers).length = row.length)
    (hname : (normHeaders headers)[i] = "hours_worked" ∨
      (normHeaders headers)[i] = "hourly_rate")
    (hfail : pyFloat? row[i] = none)
    (hlast : ∀ j (hj : j < row.length), i < j →
      (normHeaders headers)[j] ≠ (normHeaders headers)[i]) :
    rowToRecord? headers row = some (buildEmployee (normHeaders headers) row) ∧
      dictGet? (buildEmployee (normHeaders headers) row) ((normHeaders headers)[i]) =
        some (Value.num 0) := by
  refine ⟨by simp [rowToRecord?, hlen], ?_⟩
  rw [buildEmployee_get_last _ row i hi hl hlast]
  rcases hname with hname | hname <;> simp [convertField, hname, hfail]

/-- Witness for C4: the non-numeric cell `abc` in an `hours_worked`
column becomes the number `0`. -/
theorem numeric_conversion_default_zero_witness :
    rowToRecord? ["name", "hours_worked"] ["x", "abc"] =
        some (buildEmployee (normHeaders ["name", "hours_worked"]) ["x", "abc"]) ∧
      dictGet? (buildEmployee (normHeaders ["name", "hours_worked"]) ["x", "abc"])
          ((normHeaders ["name", "hours_worked"])[1]) = some (Value.num 0) :=
  numeric_conversion_default_zero ["name", "hours_worked"] ["x", "abc"] 1
    (by decide) (by decide) (by decide) (Or.inl (by decide)) (by decide)
    (by intro j hj h1j; simp at hj; omega)

/-! ## Claim C10: colliding headers -/

/-- C10: when several headers of one file normalise to the same name, a
width-matching row still yields exactly one record (first conjunct); every
lookup in that record returns the value of the RIGHTMOST column bound to
that name (`assocLast` picks the last binding in column order), so the
values of earlier colliding columns are discarded; and the record's keys
are duplicate-free, so it has one entry per distinct normalised name —
fewer entries than columns whenever a collision occurs. -/
theorem duplicate_headers_rightmost_wins (headers row : List String)
    (hlen : row.length = headers.length) (k : String) :
    rowToRecord? headers row = some (buildEmployee (normHeaders headers) row) ∧
      dictGet? (buildEmployee (normHeaders headers) row) k =
        assocLast (rowPairs (normHeaders headers) row) k ∧
      ((buildEmployee (normHeaders headers) row).map Prod.fst).Nodup :=
  ⟨by simp [rowToRecord?, hlen], dictGet?_buildEmployee _ row k,
    buildEmployee_keys_nodup _ row⟩

/-- Witness for C10, at the claim's example: a `rate,salary` header pair,
both normalising to `hourly_rate`. -/
theorem duplicate_headers_rightmost_wins_witness :
    rowToRecord? ["rate", "salary"] ["10", "20"] =
        some (buildEmployee (normHeaders ["rate", "salary"]) ["10", "20"]) ∧
      dictGet? (buildEmployee (normHeaders ["rate", "salary"]) ["10", "20"]) "hourly_rate" =
        assocLast (rowPairs (normHeaders ["rate", "salary"]) ["10", "20"]) "hourly_rate" ∧
      ((buildEmployee (normHeaders ["rate", "salary"]) ["10", "20"]).map Prod.fst).Nodup :=
  duplicate_headers_rightmost_wins ["rate", "salary"] ["10", "20"] (by decide) "hourly_rate"

/-! ## Claim C5: the empty-input sentinel -/

/-- C5: `generate_payout_report` on the empty record sequence returns
exactly the single-line sentinel document, and (being a total function)
raises nothing. -/
theorem generate_payout_report_empty_sentinel :
    generate_payout_report [] = "No data available for report." := rfl

/-! ## Claim C8: report selection -/

/-- C8: looking up the registered name `"payout"` returns the payout
report function; looking up any other name fails with the configuration
error whose message carries the offending name, without running any
report function (the result is an `error`, not the output of a
generator); these are the only two outcomes. -/
theorem get_report_generator_spec (name : String) :
    (name = "payout" → get_report_generator name = .ok generate_payout_report) ∧
      (name ≠ "payout" →
        get_report_generator name = .error ("Unknown report type: " ++ name)) := by
  constructor
  · intro h
    subst h
    rfl
  · intro h
    have hbeq : (name == "payout") = false := by
      simpa [beq_iff_eq] using h
    simp [get_report_generator, report_generators, List.lookup, hbeq]

/-- Witness for C8: the unregistered name `"bogus"` yields the
configuration error naming `"bogus"`, and `"payout"` yields the payout
generator. -/
theorem get_report_generator_spec_witness :
    get_report_generator "bogus" = .error "Unknown report type: bogus" ∧
      get_report_generator "payout" = .ok generate_payout_report :=
  ⟨(get_report_generator_spec "bogus").2 (by decide),
    (get_report_generator_spec "payout").1 rfl⟩

/-! ## Report-loop lemmas -/

theorem foldl_emitEmployee (es : List Record) (ls : List String) (h p : ℚ) :
    es.foldl emitEmployee ⟨ls, h, p⟩ =
      ⟨ls ++ es.map employeeLine, h + deptHours es, p + deptPayout es⟩ := by
  induction es generalizing ls h p with
  | nil => simp [deptHours, deptPayout]
  | cons e es ih =>
    simp only [List.foldl_cons, emitEmployee]
    rw [ih]
    simp [deptHours, deptPayout, add_assoc]

theorem foldl_emitDept (deps : List (String × List Record)) (ls : List String) (h p : ℚ) :
    deps.foldl emitDept ⟨ls, h, p⟩ =
      ⟨ls ++ (deps.map (fun q => deptSection q.1 q.2)).flatten,
        h + (deps.map (fun q => deptHours q.2)).sum,
        p + (deps.map (fun q => deptPayout q.2)).sum⟩ := by
  induction deps generalizing ls h p with
  | nil => simp
  | cons q deps ih =>
    simp only [List.foldl_cons, emitDept, foldl_emitEmployee]
    rw [ih]
    simp [deptSection, add_assoc]

theorem runReport_eq (deps : List (String × List Record)) :
    runReport deps =
      ⟨headerLine :: (deps.map (fun q => deptSection q.1 q.2)).flatten,
        (deps.map (fun q => deptHours q.2)).sum,
        (deps.map (fun q => deptPayout q.2)).sum⟩ := by
  rw [runReport, foldl_emitDept]
  simp

/-! ## Grouping lemmas -/

theorem addToGroup_keys (deps : List (String × List Record)) (d : String) (e : Record) :
    (addToGroup deps d e).map Prod.fst =
      if d ∈ deps.map Prod.fst then deps.map Prod.fst
      else deps.map Prod.fst ++ [d] := by
  induction deps with
  | nil => rfl
  | cons q deps ih =>
    obtain ⟨d', es⟩ := q
    by_cases hd : d' = d
    · subst hd
      simp [addToGroup]
    · have hne : ¬ d = d' := fun h => hd h.symm
      by_cases hmem : d ∈ deps.map Prod.fst <;>
        simp [addToGroup, hd, hne, hmem, ih]

theorem mem_keys_addToGroup (deps : List (String × List Record)) (d : String)
    (e : Record) : d ∈ (addToGroup deps d e).map Prod.fst := by
  rw [addToGroup_keys]
  by_cases hmem : d ∈ deps.map Prod.fst <;> simp [hmem]

theorem addToGroup_cases (deps : List (String × List Record)) (d : String) (e : Record)
    (hnd : (deps.map Prod.fst).Nodup) :
    ∀ p ∈ addToGroup deps d e,
      (p ∈ deps ∧ p.1 ≠ d) ∨
        (∃ es, (d, es) ∈ deps ∧ p = (d, es ++ [e])) ∨
        (d ∉ deps.map Prod.fst ∧ p = (d, [e])) := by
  induction deps with
  | nil =>
    intro p hp
    simp only [addToGroup, List.mem_singleton] at hp
    exact Or.inr (Or.inr ⟨by simp, hp⟩)
  | cons q deps ih =>
    obtain ⟨d', es⟩ := q
    intro p hp
    rw [List.map_cons, List.nodup_cons] at hnd
    by_cases hd : d' = d
    · rw [addToGroup, if_pos hd] at hp
      rcases List.mem_cons.mp hp with hp | hp
      · refine Or.inr (Or.inl ⟨es, ?_, ?_⟩)
        · rw [← hd]
          exact List.mem_cons_self _ _
        · rw [hp, hd]
      · have hdn : d ∉ deps.map Prod.fst := hd ▸ hnd.1
        refine Or.inl ⟨List.mem_cons_of_mem _ hp, fun hpe => hdn ?_⟩
        rw [← hpe]
        exact List.mem_map_of_mem Prod.fst hp
    · rw [addToGroup, if_neg hd] at hp
      rcases List.mem_cons.mp hp with hp | hp
      · refine Or.inl ⟨?_, ?_⟩
        · rw [hp]
          exact List.mem_cons_self _ _
        · intro h
          rw [hp] at h
          exact hd h
      · rcases ih hnd.2 p hp with ⟨h1, h2⟩ | ⟨es', h1, h2⟩ | ⟨h1, h2⟩
        · exact Or.inl ⟨List.mem_cons_of_mem _ h1, h2⟩
        · exact Or.inr (Or.inl ⟨es', List.mem_cons_of_mem _ h1, h2⟩)
        · refine Or.inr (Or.inr ⟨?_, h2⟩)
          simp only [List.map_cons, List.mem_cons]
          rintro (h | h)
          exacts [hd h.symm, h1 h]

theorem groupByDept_append (rs : List Record) (e : Record) :
    groupByDept (rs ++ [e]) = addToGroup (groupByDept rs) (deptKey e) e := by
  simp [groupByDept, List.foldl_append]

theorem groupByDept_spec (rs : List Record) :
    ((groupByDept rs).map Prod.fst).Nodup ∧
      (∀ p ∈ groupByDept rs,
        p.2 = rs.filter (fun e => decide (deptKey e = p.1))) ∧
      (∀ d : String, d ∉ (groupByDept rs).map Prod.fst →
        rs.filter (fun e => decide (deptKey e = d)) = []) := by
  induction rs using List.reverseRecOn with
  | nil => exact ⟨by simp [groupByDept], by simp [groupByDept], by simp [groupByDept]⟩
  | append_singleton rs e ih =>
    obtain ⟨ihnd, ihfil, ihnone⟩ := ih
    rw [groupByDept_append]
    refine ⟨?_, ?_, ?_⟩
    · rw [addToGroup_keys]
      by_cases hmem : deptKey e ∈ (groupByDept rs).map Prod.fst
      · simpa [hmem] using ihnd
      · simp only [if_neg hmem]
        simpa [List.nodup_append, hmem] using ihnd
    · intro p hp
      rcases addToGroup_cases _ _ _ ihnd p hp with
        ⟨h1, h2⟩ | ⟨es, h1, h2⟩ | ⟨h1, h2⟩
      · rw [ihfil p h1]
        have : ¬ (deptKey e = p.1) := fun h => h2 (by rw [← h])
        simp [List.filter_append, this]
      · subst h2
        rw [List.filter_append]
        have h3 := ihfil _ h1
        simp only at h3
        simp [← h3]
      · subst h2
        rw [List.filter_append]
        simp [ihnone _ h1]
    · intro d hd
      rw [addToGroup_keys] at hd
      by_cases hmem : deptKey e ∈ (groupByDept rs).map Prod.fst
      · rw [if_pos hmem] at hd
        have hne : ¬ (deptKey e = d) := fun h => hd (h ▸ hmem)
        simp [List.filter_append, ihnone d hd, hne]
      · rw [if_neg hmem] at hd
        simp only [List.mem_append, List.mem_singleton, not_or] at hd
        have hne : ¬ (deptKey e = d) := fun h => hd.2 h.symm
        simp [List.filter_append, ihnone d hd.1, hne]

theorem addToGroup_sum (f : Record → ℚ) (deps : List (String × List Record))
    (d : String) (e : Record) :
    ((addToGroup deps d e).map (fun p => (p.2.map f).sum)).sum =
      (deps.map (fun p => (p.2.map f).sum)).sum + f e := by
  induction deps with
  | nil => simp [addToGroup]
  | cons q deps ih =>
    obtain ⟨d', es⟩ := q
    by_cases hd : d' = d
    · subst hd
      simp [addToGroup]
      ring
    · simp [addToGroup, hd, ih]
      ring

theorem groupByDept_sum (f : Record → ℚ) (rs : List Record) :
    ((groupByDept rs).map (fun p => (p.2.map f).sum)).sum = (rs.map f).sum := by
  induction rs using List.reverseRecOn with
  | nil => simp [groupByDept]
  | append_singleton rs e ih =>
    rw [groupByDept_append, addToGroup_sum, ih]
    simp

/-! ## Sorting lemmas -/

theorem sortDeps_perm (deps : List (String × List Record)) :
    (sortDeps deps).Perm deps :=
  List.perm_insertionSort _ _

theorem sortDeps_sorted (deps : List (String × List Record)) :
    ((sortDeps deps).map Prod.fst).Sorted (· ≤ ·) :=
  List.Pairwise.map Prod.fst (fun _ _ hab => hab)
    (List.sorted_insertionSort (fun a b : String × List Record => a.1 ≤ b.1) deps)

/-! ## Claim C6: deterministic department ordering -/

/-- C6: for non-empty well-typed input, the department sections of the
payout report appear in strictly ascending lexicographic order of the
department key — whatever the arrival order was (the key sequence of
`reportDepartments` is sorted for EVERY input, and the groups are
determined by the records alone: conjuncts 1 and 2) — records lacking a
department fall under `deptKey`'s `"Unknown"` default, every record's
department does appear (conjunct 3), within each department the employees
are exactly the records of that department in original arrival order
(conjunct 2, a `filter` of the input sequence), and the report output is
precisely these sections in this order between the header line and the
grand-total lines (conjunct 4). -/
theorem payout_report_department_order (rs : List Record) (hne : rs ≠ [])
    (_hwt : wellTyped rs = true) :
    ((reportDepartments rs).map Prod.fst).Sorted (· < ·) ∧
      (∀ p ∈ reportDepartments rs,
        p.2 = rs.filter (fun e => decide (deptKey e = p.1))) ∧
      (∀ e ∈ rs, deptKey e ∈ (reportDepartments rs).map Prod.fst) ∧
      generate_payout_report rs =
        String.intercalate "\n"
          ((headerLine ::
              ((reportDepartments rs).map (fun p => deptSection p.1 p.2)).flatten) ++
            ["\n" ++ "Total hours: " ++
                fmt0 (runReport (reportDepartments rs)).grand_total_hours,
              "Total payout: $" ++
                fmt0 (runReport (reportDepartments rs)).grand_total_payout]) := by
  obtain ⟨hnd, hfil, hnone⟩ := groupByDept_spec rs
  have hperm : ((reportDepartments rs).map Prod.fst).Perm
      ((groupByDept rs).map Prod.fst) := (sortDeps_perm _).map _
  have hnd' : ((reportDepartments rs).map Prod.fst).Nodup :=
    hperm.nodup_iff.mpr hnd
  refine ⟨(sortDeps_sorted _).lt_of_le hnd', ?_, ?_, ?_⟩
  · intro p hp
    exact hfil p ((sortDeps_perm _).mem_iff.mp hp)
  · intro e he
    by_contra hmem
    have hmem' : deptKey e ∉ (groupByDept rs).map Prod.fst :=
      fun h => hmem (hperm.mem_iff.mpr h)
    have hself : e ∈ rs.filter (fun x => decide (deptKey x = deptKey e)) :=
      List.mem_filter.mpr ⟨he, by simp⟩
    rw [hnone _ hmem'] at hself
    exact absurd hself (List.not_mem_nil e)
  · rw [generate_payout_report, if_neg hne]
    simp [runReport_eq]

/-- Witness for C6 at the concrete three-record scenario. -/
theorem payout_report_department_order_witness :
    ((reportDepartments demoRecords).map Prod.fst).Sorted (· < ·) :=
  (payout_report_department_order demoRecords (by decide) (by decide)).1

/-! ## Claim C7: grand totals are sums of subtotals -/

/-- C7: the grand totals the report loop computes equal the sum of the
department subtotal hours and the sum of the department subtotal payouts
(the very values the subtotal lines display, see `deptSection`), and in
turn the grand payout equals the sum over all records of
`hours_worked * hourly_rate` — both fields defaulting to `0` when absent
(`getHours`/`getRate`) — and the grand hours the sum of all records'
hours. -/
theorem payout_report_grand_totals (rs : List Record) (_hwt : wellTyped rs = true) :
    (runReport (reportDepartments rs)).grand_total_hours =
        ((reportDepartments rs).map (fun p => deptHours p.2)).sum ∧
      (runReport (reportDepartments rs)).grand_total_payout =
        ((reportDepartments rs).map (fun p => deptPayout p.2)).sum ∧
      (runReport (reportDepartments rs)).grand_total_payout =
        (rs.map employeePayout).sum ∧
      (runReport (reportDepartments rs)).grand_total_hours =
        (rs.map getHours).sum := by
  have h1 := runReport_eq (reportDepartments rs)
  refine ⟨by rw [h1], by rw [h1], ?_, ?_⟩
  · rw [h1]
    have hperm : ((reportDepartments rs).map (fun p => deptPayout p.2)).Perm
        ((groupByDept rs).map (fun p => deptPayout p.2)) := (sortDeps_perm _).map _
    show ((reportDepartments rs).map (fun q => deptPayout q.2)).sum = _
    rw [hperm.sum_eq]
    simpa only [deptPayout] using groupByDept_sum employeePayout rs
  · rw [h1]
    have hperm : ((reportDepartments rs).map (fun p => deptHours p.2)).Perm
        ((groupByDept rs).map (fun p => deptHours p.2)) := (sortDeps_perm _).map _
    show ((reportDepartments rs).map (fun q => deptHours q.2)).sum = _
    rw [hperm.sum_eq]
    simpa only [deptHours] using groupByDept_sum getHours rs

/-- Witness for C7 at the concrete three-record scenario. -/
theorem payout_report_grand_totals_witness :
    (runReport (reportDepartments demoRecords)).grand_total_payout =
      (demoRecords.map employeePayout).sum :=
  (payout_report_grand_totals demoRecords (by decide)).2.2.1

/-! ## Claim C9: the concrete three-record scenario

Tracing the renderer (and the model, proved equal below): each employee
payout is emitted by `f"... ${payout:9.0f}"`, i.e. a dollar sign followed
by the amount right-justified in a width-9 field, so John's payout renders
as `"$     8000"` — the contiguous substring `"$8000"` never occurs in the
document, and likewise for `"$9000"` and `"$6800"`.  This contradicts the
repository's own test `test_generate_payout_report`, which asserts
`'$8000' in report` (and the spec's testable property 7, which this claim
quotes).  The rest of the claim holds: HR renders before IT, and the
grand-total lines `Total hours: 480` and `Total payout: $23800` do occur
(the grand payout is formatted with no width, so there `$` is adjacent to
the digits). -/

theorem demoRecords_lt : ("HR" : String) < "IT" := by
  rw [String.lt_iff_toList_lt]
  decide

set_option maxRecDepth 40000 in
theorem demoRecords_group :
    groupByDept demoRecords = [("IT", [johnDoe, janeSmith]), ("HR", [bobBrown])] := by
  decide

set_option maxRecDepth 40000 in
theorem demoRecords_deps :
    reportDepartments demoRecords = [("HR", [bobBrown]), ("IT", [johnDoe, janeSmith])] := by
  have hnle : ¬ (("IT" : String) ≤ "HR") := not_le.mpr demoRecords_lt
  rw [reportDepartments, demoRecords_group]
  simp [sortDeps, List.insertionSort, List.orderedInsert, hnle]

set_option maxRecDepth 100000 in
theorem demoRecords_report_eq : generate_payout_report demoRecords = demoReport := by
  simp only [generate_payout_report, if_neg (show ¬ demoRecords = [] by decide)]
  rw [demoRecords_deps, runReport_eq]
  norm_num +decide [deptSection, deptHours, deptPayout, employeePayout, getHours, getRate,
    getName, johnDoe, janeSmith, bobBrown, dictGet?, employeeLine, subtotalLine, headerLine,
    fmt0w, fmt0, rnd, fmtValueLeft, Rat.num_ofNat]

set_option maxRecDepth 100000 in
/-- C9 (code bug): at the spec's concrete scenario the report equals
`demoReport`; department `HR` renders before `IT` and the two grand-total
lines occur as claimed, but the payout substrings `"$8000"`, `"$9000"`,
`"$6800"` do NOT occur — the amounts appear as `"$     8000"` etc., with
the width-9 right-justification's padding between the dollar sign and the
digits — contradicting the claim and the repository's own test
`test_generate_payout_report`. -/
theorem payout_report_scenario_bug :
    generate_payout_report demoRecords = demoReport ∧
      strContains demoReport "$8000" = false ∧
      strContains demoReport "$9000" = false ∧
      strContains demoReport "$6800" = false ∧
      strContains demoReport "$     8000" = true ∧
      strContains demoReport "$     9000" = true ∧
      strContains demoReport "$     6800" = true ∧
      strContains demoReport "Total hours: 480" = true ∧
      strContains demoReport "Total payout: $23800" = true ∧
      (reportDepartments demoRecords).map Prod.fst = ["HR", "IT"] :=
  ⟨demoRecords_report_eq, by decide, by decide, by decide, by decide, by decide,
    by decide, by decide, by decide, by rw [demoRecords_deps]; decide⟩

end EmployeeReport
